import Mathlib

/-!
# Verification of `auto_cleaner.py`

A shallow embedding of the safety-validated deletion engine of
`src/auto_cleaner.py`: the folder-path validator (`validate_folder`), the
keep-name validator (`validate_filename`), the per-file deletion executor
with bounded retry (`try_delete`), the cleanup engine (`safe_delete_all`)
and the interval scheduler (`cleanup_loop`).

Filesystem state and Python exceptions are modelled explicitly: fallible
operations return `Except String _` where `.error msg` stands for a raised
exception carrying `str(ex) = msg`, and the filesystem is an abstract
environment of boolean/partial queries.  Python's `str.lower` is modelled
character-wise, and durations are in integral milliseconds / seconds.
-/

namespace AutoCleaner
/-- Model of Python's `str.lower()`: lowercase each character. -/
def lowerStr (s : String) : String := String.mk (s.data.map Char.toLower)

/-! ## NameValidator (`validate_filename`, auto_cleaner.py lines 158-162)

```python
def validate_filename(name: str):
    if not name or len(name) > 255:
        return False
    bad = set('<>:"/\\|?*')
    return not any(ch in bad for ch in name)
```
-/

/-- The reserved characters of `bad = set('<>:"/\\|?*')`. -/
def RESERVED_CHARS : List Char := ['<', '>', ':', '\"', '/', '\\', '|', '?', '*']

/-- Embedding of `validate_filename`.  `not name` is the emptiness test,
`len(name)` counts characters. -/
def validate_filename (name : String) : Bool :=
  if name.isEmpty || name.length > 255 then false
  else !(name.data.any fun ch => RESERVED_CHARS.contains ch)

/-! ## PathSafetyValidator (`validate_folder`, auto_cleaner.py lines 140-155)

```python
def validate_folder(p: Path):
    if not p.exists() or not p.is_dir():
        return False
    if p.anchor and p == Path(p.anchor):
        return False
    parts = [part for part in p.resolve().parts if part not in ("\\", "/")]
    if len(parts) < SAFE_MIN_DEPTH:
        return False
    rp = p.resolve()
    for bad in FORBIDDEN_PREFIXES:
        try:
            if str(rp).lower() == str(bad.resolve()).lower():
                return False
        except Exception:
            continue
    return True
```

Paths are modelled as their string form.  The filesystem is an abstract
environment: `pathExists`/`isDir` answer the `exists()`/`is_dir()` queries,
`anchor p` is `p.anchor`, `anchorPath a` is the path value `Path(a)` used in
the equality test, `resolve p` is `p.resolve()` (`.error msg` when resolution
raises; `p.resolve()` is deterministic within one call, so the two calls on
lines 145 and 148 yield the same value), and `parts rp` is `rp.parts`.
`userprofile` is the expansion of `%USERPROFILE%` on line 72. -/

structure FSEnv where
  pathExists : String → Bool
  isDir : String → Bool
  anchor : String → String
  anchorPath : String → String
  resolve : String → Except String String
  parts : String → List String
  userprofile : String

/-- The constant `SAFE_MIN_DEPTH` = 3 (auto_cleaner.py line 75). -/
def SAFE_MIN_DEPTH : Nat := 3

/-- The `FORBIDDEN_PREFIXES` list (auto_cleaner.py lines 66-73), as path
strings; the last entry is the expansion of `%USERPROFILE%`. -/
def FORBIDDEN_DIRS (userprofile : String) : List String :=
  ["C:/", "C:/Windows", "C:/Windows/System32", "C:/Program Files",
   "C:/Program Files (x86)", userprofile]

/-- The `for bad in FORBIDDEN_PREFIXES` loop of `validate_folder`
(lines 149-154): only `bad.resolve()` can raise inside the `try`, and a
raise is answered by `continue`, i.e. the entry is skipped.  Returns
`false` when a resolved forbidden entry matches `rp` case-insensitively,
`true` when the loop falls through to `return True`. -/
def checkForbiddenFrom (env : FSEnv) (rp : String) : List String → Bool
  | [] => true
  | bad :: rest =>
    match env.resolve bad with
    | Except.error _ => checkForbiddenFrom env rp rest
    | Except.ok rb =>
      if lowerStr rp == lowerStr rb then false
      else checkForbiddenFrom env rp rest

/-- The `[part for part in rp.parts if part not in ("\\", "/")]` filter. -/
def filteredParts (env : FSEnv) (rp : String) : List String :=
  (env.parts rp).filter fun s => s != "\\" && s != "/"

/-- Embedding of `validate_folder`.  The result is `.error msg` when the
unprotected `p.resolve()` on line 145 raises: nothing catches it, so the
exception escapes the function. -/
def validate_folder (env : FSEnv) (p : String) : Except String Bool :=
  if !env.pathExists p || !env.isDir p then Except.ok false
  else if env.anchor p != "" && p == env.anchorPath (env.anchor p) then Except.ok false
  else
    match env.resolve p with
    | Except.error e => Except.error e
    | Except.ok rp =>
      if (filteredParts env rp).length < SAFE_MIN_DEPTH then Except.ok false
      else Except.ok (checkForbiddenFrom env rp (FORBIDDEN_DIRS env.userprofile))

/-- A concrete environment in which every path exists and is a directory,
the anchor test is trivially passed, and resolution always raises a
`PermissionError`. -/
def envResolveRaises : FSEnv where
  pathExists := fun _ => true
  isDir := fun _ => true
  anchor := fun _ => ""
  anchorPath := fun a => a
  resolve := fun _ => Except.error "permission denied"
  parts := fun _ => []
  userprofile := "C:/Users/alice"

def prompt_keep_list : List String → List String
  | [] => []
  | item :: rest =>
    if item == "" then []
    else if validate_filename item then item :: prompt_keep_list rest
    else prompt_keep_list rest

def envShallow : FSEnv where
  pathExists := fun _ => true
  isDir := fun _ => true
  anchor := fun _ => ""
  anchorPath := fun a => a
  resolve := fun s => Except.ok s
  parts := fun _ => ["C:", "Users"]
  userprofile := "C:/Users/alice"

def envForbiddenRaises : FSEnv where
  pathExists := fun _ => true
  isDir := fun _ => true
  anchor := fun _ => ""
  anchorPath := fun a => a
  resolve := fun s =>
    if s == "C:/Users/alice" then Except.error "cannot resolve" else Except.ok s
  parts := fun _ => ["C:", "USERS", "ALICE"]
  userprofile := "C:/Users/alice"

/-! ## DeletionExecutor (`try_delete`, auto_cleaner.py lines 221-228)

```python
def try_delete(path: Path, retries=3, delay=0.25) -> bool:
    for _ in range(retries):
        try:
            os.remove(path)
            return True
        except (PermissionError, FileNotFoundError):
            time.sleep(delay)
    return False
```
-/

/-- Outcome of one `os.remove` attempt on a path: success, a caught
`PermissionError`, a caught `FileNotFoundError` (the file vanished
concurrently), or any other exception, which `try_delete` does not catch. -/
inductive DeleteOutcome where
  | success
  | permError
  | vanished
  | otherError (msg : String)
deriving Repr, DecidableEq

/-- Trace of one `try_delete` call: its result (`.error msg` when an
uncaught exception escapes), how many `os.remove` attempts ran, and the
`time.sleep` delays performed, in milliseconds. -/
structure TryDeleteRun where
  result : Except String Bool
  attempts : Nat
  sleepsMs : List Nat
deriving Repr

/-- The `retries=3` default of `try_delete`; `safe_delete_all` calls it with
this default. -/
def RETRIES : Nat := 3

/-- The `delay=0.25` seconds delay, in milliseconds. -/
def DELAY_MS : Nat := 250

/-- The `for _ in range(retries)` loop of `try_delete`, started at attempt
index `i` with `fuel` iterations left; `outcome i` is what the i-th
`os.remove` call does.  A caught failure sleeps `DELAY_MS` and retries;
exhausting the loop falls through to `return False`. -/
def try_delete_go (outcome : Nat → DeleteOutcome) (i : Nat) : Nat → TryDeleteRun
  | 0 => ⟨Except.ok false, 0, []⟩
  | fuel + 1 =>
    match outcome i with
    | DeleteOutcome.success => ⟨Except.ok true, 1, []⟩
    | DeleteOutcome.permError =>
      let r := try_delete_go outcome (i + 1) fuel
      ⟨r.result, r.attempts + 1, DELAY_MS :: r.sleepsMs⟩
    | DeleteOutcome.vanished =>
      let r := try_delete_go outcome (i + 1) fuel
      ⟨r.result, r.attempts + 1, DELAY_MS :: r.sleepsMs⟩
    | DeleteOutcome.otherError msg => ⟨Except.error msg, 1, []⟩

/-- Embedding of `try_delete`. -/
def try_delete (outcome : Nat → DeleteOutcome) (retries : Nat) : TryDeleteRun :=
  try_delete_go outcome 0 retries

/-! ## CleanupEngine (`safe_delete_all`, auto_cleaner.py lines 195-218)

```python
def safe_delete_all(folder: Path, keep_list: list) -> dict:
    keep_lower = {name.lower() for name in keep_list}
    deleted, skipped, errors = [], [], []
    for entry in folder.iterdir():
        try:
            if entry.name.lower() in keep_lower:
                skipped.append(entry.name)
                continue
            if entry.is_file():
                if try_delete(entry):
                    deleted.append(entry.name)
                else:
                    errors.append((entry.name, "access denied"))
            elif entry.is_dir():
                try:
                    shutil.rmtree(entry)
                    deleted.append(entry.name + "/")
                except Exception as ex:
                    errors.append((entry.name, str(ex)))
            else:
                skipped.append(entry.name)
        except Exception as ex:
            errors.append((entry.name, str(ex)))
    return {"deleted": deleted, "skipped": skipped, "errors": errors}
```
-/

/-- One direct child yielded by `folder.iterdir()`, together with how the
filesystem behaves on it during this cycle: a regular file (with the
per-attempt `os.remove` outcomes consumed by `try_delete`), a directory
(with the result of `shutil.rmtree`, `.error msg` when it raises), an
entry that is neither file nor directory, or an entry whose body raises
some other exception (e.g. from the `is_file` query), caught by the
per-entry handler. -/
inductive EntrySpec where
  | file (name : String) (outcome : Nat → DeleteOutcome)
  | dir (name : String) (rmtree : Except String Unit)
  | other (name : String)
  | raising (name : String) (msg : String)

/-- The accessor for `entry.name`. -/
def EntrySpec.name : EntrySpec → String
  | EntrySpec.file n _ => n
  | EntrySpec.dir n _ => n
  | EntrySpec.other n => n
  | EntrySpec.raising n _ => n

/-- The `{"deleted": ..., "skipped": ..., "errors": ...}` dict. -/
structure Report where
  deleted : List String
  skipped : List String
  errors : List (String × String)
deriving Repr, DecidableEq

/-- Loop state of `safe_delete_all`: the three report lists, plus an
instrumentation trace `ops` of the entry names on which a delete operation
(`os.remove` via `try_delete`, or `shutil.rmtree`) was invoked. -/
structure RunState where
  report : Report
  ops : List String
deriving Repr

def emptyState : RunState := ⟨⟨[], [], []⟩, []⟩

/-- One iteration of the `for entry in folder.iterdir()` loop body. -/
def stepEntry (keepLower : List String) (st : RunState) (e : EntrySpec) : RunState :=
  if keepLower.contains (lowerStr e.name) then
    { st with report := { st.report with skipped := st.report.skipped ++ [e.name] } }
  else
    match e with
    | EntrySpec.file n outcome =>
      match (try_delete outcome RETRIES).result with
      | Except.ok true =>
        { report := { st.report with deleted := st.report.deleted ++ [n] },
          ops := st.ops ++ [n] }
      | Except.ok false =>
        { report := { st.report with errors := st.report.errors ++ [(n, "access denied")] },
          ops := st.ops ++ [n] }
      | Except.error msg =>
        { report := { st.report with errors := st.report.errors ++ [(n, msg)] },
          ops := st.ops ++ [n] }
    | EntrySpec.dir n res =>
      match res with
      | Except.ok _ =>
        { report := { st.report with deleted := st.report.deleted ++ [n ++ "/"] },
          ops := st.ops ++ [n] }
      | Except.error msg =>
        { report := { st.report with errors := st.report.errors ++ [(n, msg)] },
          ops := st.ops ++ [n] }
    | EntrySpec.other n =>
      { st with report := { st.report with skipped := st.report.skipped ++ [n] } }
    | EntrySpec.raising n msg =>
      { st with report := { st.report with errors := st.report.errors ++ [(n, msg)] } }

/-- The whole `for` loop over the yielded entries. -/
def runEntries (keepLower : List String) (entries : List EntrySpec) : RunState :=
  entries.foldl (stepEntry keepLower) emptyState

/-- Embedding of `safe_delete_all`.  `entries` are the children yielded by
`folder.iterdir()`; `enumFail = some msg` means the iterator raised with
message `msg` after yielding them — the `for` statement itself is outside
the per-entry `try`, so that exception escapes the function and the report
built so far is discarded. -/
def safe_delete_all (entries : List EntrySpec) (enumFail : Option String)
    (keep_list : List String) : Except String Report :=
  let keepLower := keep_list.map lowerStr
  match enumFail with
  | some msg => Except.error msg
  | none => Except.ok (runEntries keepLower entries).report

/-! Per-entry bucket contributions, used to characterise the fold. -/

/-- What one entry appends to `deleted`. -/
def entryDeleted (keepLower : List String) (e : EntrySpec) : List String :=
  if keepLower.contains (lowerStr e.name) then []
  else
    match e with
    | EntrySpec.file n outcome =>
      match (try_delete outcome RETRIES).result with
      | Except.ok true => [n]
      | _ => []
    | EntrySpec.dir n res =>
      match res with
      | Except.ok _ => [n ++ "/"]
      | _ => []
    | EntrySpec.other _ => []
    | EntrySpec.raising _ _ => []

/-- What one entry appends to `skipped`. -/
def entrySkipped (keepLower : List String) (e : EntrySpec) : List String :=
  if keepLower.contains (lowerStr e.name) then [e.name]
  else
    match e with
    | EntrySpec.other n => [n]
    | _ => []

/-- What one entry appends to `errors`. -/
def entryErrors (keepLower : List String) (e : EntrySpec) : List (String × String) :=
  if keepLower.contains (lowerStr e.name) then []
  else
    match e with
    | EntrySpec.file n outcome =>
      match (try_delete outcome RETRIES).result with
      | Except.ok true => []
      | Except.ok false => [(n, "access denied")]
      | Except.error msg => [(n, msg)]
    | EntrySpec.dir n res =>
      match res with
      | Except.ok _ => []
      | Except.error msg => [(n, msg)]
    | EntrySpec.other _ => []
    | EntrySpec.raising n msg => [(n, msg)]

/-- The delete operations one entry triggers. -/
def entryOps (keepLower : List String) (e : EntrySpec) : List String :=
  if keepLower.contains (lowerStr e.name) then []
  else
    match e with
    | EntrySpec.file n _ => [n]
    | EntrySpec.dir n _ => [n]
    | EntrySpec.other _ => []
    | EntrySpec.raising _ _ => []

/-- The direct children still present at the start of a second engine run
when nothing was added to the folder between the runs: the entries of the
first run that it did not delete, with their per-cycle behavior unchanged. -/
def survivors (keepLower : List String) (entries : List EntrySpec) : List EntrySpec :=
  entries.filter fun e => (entryDeleted keepLower e).isEmpty

def wEntries : List EntrySpec :=
  [EntrySpec.other "KeepMe", EntrySpec.file "a.txt" (fun _ => DeleteOutcome.success)]

def wRep : Report := (runEntries (["keepme"].map lowerStr) wEntries).report

def wEntries2 : List EntrySpec :=
  [EntrySpec.file "locked.txt" (fun _ => DeleteOutcome.permError),
   EntrySpec.file "a.txt" (fun _ => DeleteOutcome.success),
   EntrySpec.other "KeepMe"]

def wRep1 : Report := (runEntries (["keepme"].map lowerStr) wEntries2).report

def wRep2 : Report :=
  (runEntries (["keepme"].map lowerStr)
    (survivors (["keepme"].map lowerStr) wEntries2)).report

/-! ## Scheduler (`cleanup_loop`, auto_cleaner.py lines 255-267)

```python
def cleanup_loop(folder: Path, keep_list: list, interval: int):
    while not STOP.is_set():
        banner()
        spinner = Spinner("Cleaning")
        spinner.start()
        stats = safe_delete_all(folder, keep_list)
        spinner.stop()
        print_summary(stats)
        log_summary(stats, folder)
        for _ in range(interval):
            if STOP.is_set():
                break
            time.sleep(1)
```

Modelled on a discrete 1-second clock: `stop t` is the value the `STOP`
event has when read at instant `t` (the signal handler only ever sets it,
so it is monotone), and each cycle's `safe_delete_all` call takes a whole
number of seconds during which the flag is not consulted.
-/

/-- The inter-cycle wait: up to `interval` iterations, each checking the
stop flag and then sleeping one second.  Returns the number of one-second
ticks actually slept. -/
def wait_ticks (stop : Nat → Bool) : Nat → Nat → Nat
  | 0, _ => 0
  | k + 1, t => if stop t then 0 else wait_ticks stop k (t + 1) + 1

/-- The `while not STOP.is_set()` loop.  `batch c = .ok d` means cycle `c`'s
`safe_delete_all` call returns after `d` seconds (the report handling takes
no modelled time); `.error msg` means it raises — `cleanup_loop` has no
handler, so the exception escapes and the loop ends exceptionally.  `fuel`
bounds how many iterations are unfolded; `some (.ok (t, c))` means the loop
observed the stop flag at time `t` after `c` complete cycles. -/
def cleanup_loop_go (stop : Nat → Bool) (batch : Nat → Except String Nat)
    (interval : Nat) : Nat → Nat → Nat → Option (Except String (Nat × Nat))
  | 0, _, _ => none
  | fuel + 1, c, t =>
    if stop t then some (Except.ok (t, c))
    else
      match batch c with
      | Except.error msg => some (Except.error msg)
      | Except.ok d =>
        cleanup_loop_go stop batch interval fuel (c + 1)
          (t + d + wait_ticks stop interval (t + d))

/-! ## Theorems -/

/-- C7: `validate_filename` returns false exactly when the name is empty,
longer than 255 characters, or contains one of the reserved characters
`< > : " / \\ | ? *`; it is a pure function of its argument (its type is
`String → Bool`, with no filesystem access in the model). -/
theorem validate_filename_false_iff (name : String) :
    validate_filename name = false ↔
      (name = "" ∨ 255 < name.length ∨ ∃ c ∈ name.data, c ∈ RESERVED_CHARS) := by
  have hempty : name.isEmpty = true ↔ name = "" := String.isEmpty_iff name
  unfold validate_filename
  by_cases h1 : name.isEmpty
  · simp [h1]
    exact Or.inl (hempty.mp h1)
  · by_cases h2 : 255 < name.length
    · simp [h1, h2]
    · have hne : name ≠ "" := fun hx => h1 (hempty.mpr hx)
      simp [h1, h2, hne, List.any_eq_true, List.elem_iff]

/-- C10: `validate_filename` accepts both "." and ".." (each non-empty,
at most 255 characters, with no reserved character), so both can be entered
into the keep list by the interactive prompt. -/
theorem dot_names_accepted :
    validate_filename "." = true ∧ validate_filename ".." = true ∧
    prompt_keep_list [".", ".."] = [".", ".."] := by decide

/-- C3: whenever `p` resolves to `rp` and the filtered segment count of
`rp` is below `SAFE_MIN_DEPTH = 3`, `validate_folder` returns false —
regardless of whether `p` exists (a non-existent `p` is rejected by the
first check, an existing one by the depth check). -/
theorem depth_invariant (env : FSEnv) (p rp : String)
    (hres : env.resolve p = Except.ok rp)
    (hdepth : (filteredParts env rp).length < SAFE_MIN_DEPTH) :
    validate_folder env p = Except.ok false := by
  unfold validate_folder
  split
  · rfl
  split
  · rfl
  rw [hres]
  simp [hdepth]

theorem depth_invariant_witness : validate_folder envShallow "C:/Users" = Except.ok false :=
  depth_invariant envShallow "C:/Users" "C:/Users" rfl (by decide)

/-- C2 counterexample: in `envResolveRaises`, resolving `p` itself raises
and `validate_folder` propagates the exception instead of returning false;
in `envForbiddenRaises`, the forbidden `%USERPROFILE%` entry fails to
resolve, the entry is skipped, and a path case-insensitively equal to it is
reported *valid*. -/
theorem resolution_failure_cx :
    validate_folder envResolveRaises "C:/Users/alice/Downloads/job" =
        Except.error "permission denied" ∧
    validate_folder envForbiddenRaises "C:/USERS/ALICE" = Except.ok true :=
  ⟨rfl, rfl⟩

/-- C2 amended: a resolution failure of `p` (reached after the existence,
directory and anchor checks pass) escapes `validate_folder` as an
exception rather than yielding false, while a resolution failure of a
forbidden-list entry merely skips that entry's comparison, so validation
can still return true. -/
theorem resolution_failure_behavior (env : FSEnv) (p e : String)
    (hex : env.pathExists p = true) (hdir : env.isDir p = true)
    (hanchor : (env.anchor p != "" && p == env.anchorPath (env.anchor p)) = false)
    (hres : env.resolve p = Except.error e) :
    validate_folder env p = Except.error e ∧
    ∀ rp bad rest e2, env.resolve bad = Except.error e2 →
      checkForbiddenFrom env rp (bad :: rest) = checkForbiddenFrom env rp rest := by
  constructor
  · simp [validate_folder, hex, hdir, hanchor, hres]
  · intro rp bad rest e2 hbad
    have heq : checkForbiddenFrom env rp (bad :: rest) =
        match env.resolve bad with
        | Except.error _ => checkForbiddenFrom env rp rest
        | Except.ok rb =>
          if lowerStr rp == lowerStr rb then false
          else checkForbiddenFrom env rp rest := rfl
    rw [heq, hbad]

theorem resolution_failure_behavior_witness :
    validate_folder envResolveRaises "C:/Users/alice/Downloads" =
      Except.error "permission denied" :=
  (resolution_failure_behavior envResolveRaises "C:/Users/alice/Downloads"
    "permission denied" rfl rfl rfl rfl).1

theorem stepEntry_eq (keepLower : List String) (st : RunState) (e : EntrySpec) :
    stepEntry keepLower st e =
      ⟨⟨st.report.deleted ++ entryDeleted keepLower e,
        st.report.skipped ++ entrySkipped keepLower e,
        st.report.errors ++ entryErrors keepLower e⟩,
        st.ops ++ entryOps keepLower e⟩ := by
  unfold stepEntry entryDeleted entrySkipped entryErrors entryOps
  by_cases hk : lowerStr e.name ∈ keepLower
  · simp [hk]
  · cases e with
    | file n outcome =>
      simp only [EntrySpec.name] at hk
      rcases hres : (try_delete outcome RETRIES).result with msg | b
      · simp [EntrySpec.name, hk, hres]
      · cases b <;> simp [EntrySpec.name, hk, hres]
    | dir n res =>
      simp only [EntrySpec.name] at hk
      rcases res with _ | msg <;> simp [EntrySpec.name, hk]
    | other n =>
      simp only [EntrySpec.name] at hk
      simp [EntrySpec.name, hk]
    | raising n msg =>
      simp only [EntrySpec.name] at hk
      simp [EntrySpec.name, hk]

theorem foldl_stepEntry (keepLower : List String) (entries : List EntrySpec) :
    ∀ st : RunState,
      entries.foldl (stepEntry keepLower) st =
        ⟨⟨st.report.deleted ++ entries.flatMap (entryDeleted keepLower),
          st.report.skipped ++ entries.flatMap (entrySkipped keepLower),
          st.report.errors ++ entries.flatMap (entryErrors keepLower)⟩,
          st.ops ++ entries.flatMap (entryOps keepLower)⟩ := by
  induction entries with
  | nil => intro st; simp
  | cons e rest ih =>
    intro st
    rw [List.foldl_cons, ih (stepEntry keepLower st e), stepEntry_eq]
    simp [List.append_assoc]

theorem runEntries_eq (keepLower : List String) (entries : List EntrySpec) :
    runEntries keepLower entries =
      ⟨⟨entries.flatMap (entryDeleted keepLower),
        entries.flatMap (entrySkipped keepLower),
        entries.flatMap (entryErrors keepLower)⟩,
        entries.flatMap (entryOps keepLower)⟩ := by
  rw [runEntries, foldl_stepEntry]
  rfl

theorem try_delete_go_attempts_le (outcome : Nat → DeleteOutcome) (fuel : Nat) :
    ∀ i, (try_delete_go outcome i fuel).attempts ≤ fuel := by
  induction fuel with
  | zero => intro i; exact Nat.le_refl 0
  | succ f ih =>
    intro i
    unfold try_delete_go
    cases h : outcome i with
    | success => simp
    | permError => simpa using Nat.succ_le_succ (ih (i + 1))
    | vanished => simpa using Nat.succ_le_succ (ih (i + 1))
    | otherError msg => simp

theorem try_delete_go_all_fail (outcome : Nat → DeleteOutcome) (fuel : Nat) :
    ∀ i, (∀ j, j < fuel →
        outcome (i + j) = DeleteOutcome.permError ∨ outcome (i + j) = DeleteOutcome.vanished) →
      try_delete_go outcome i fuel = ⟨Except.ok false, fuel, List.replicate fuel DELAY_MS⟩ := by
  induction fuel with
  | zero => intro i _; rfl
  | succ f ih =>
    intro i h
    have h0 := h 0 f.succ_pos
    rw [Nat.add_zero] at h0
    have hrec := ih (i + 1) (fun j hj => by
      have hx := h (j + 1) (Nat.succ_lt_succ hj)
      rwa [show i + (j + 1) = i + 1 + j from by omega] at hx)
    unfold try_delete_go
    rcases h0 with h0 | h0 <;> rw [h0] <;> simp [hrec, List.replicate_succ]

theorem try_delete_go_no_other (outcome : Nat → DeleteOutcome) (fuel : Nat) :
    ∀ i, (∀ j, j < fuel → ∀ msg, outcome (i + j) ≠ DeleteOutcome.otherError msg) →
      ∃ b, (try_delete_go outcome i fuel).result = Except.ok b := by
  induction fuel with
  | zero => intro i _; exact ⟨false, rfl⟩
  | succ f ih =>
    intro i h
    unfold try_delete_go
    cases h0 : outcome i with
    | success => exact ⟨true, rfl⟩
    | permError =>
      obtain ⟨b, hb⟩ := ih (i + 1) (fun j hj msg => by
        have hx := h (j + 1) (Nat.succ_lt_succ hj) msg
        rwa [show i + (j + 1) = i + 1 + j from by omega] at hx)
      exact ⟨b, by simpa using hb⟩
    | vanished =>
      obtain ⟨b, hb⟩ := ih (i + 1) (fun j hj msg => by
        have hx := h (j + 1) (Nat.succ_lt_succ hj) msg
        rwa [show i + (j + 1) = i + 1 + j from by omega] at hx)
      exact ⟨b, by simpa using hb⟩
    | otherError msg =>
      have hx := h 0 f.succ_pos msg
      rw [Nat.add_zero] at hx
      exact absurd h0 hx

theorem entryDeleted_shape (kl : List String) (e : EntrySpec) (x : String)
    (hx : x ∈ entryDeleted kl e) :
    lowerStr e.name ∉ kl ∧ (x = e.name ∨ x = e.name ++ "/") := by
  unfold entryDeleted at hx
  by_cases hk : lowerStr e.name ∈ kl
  · simp [hk] at hx
  · refine ⟨hk, ?_⟩
    cases e with
    | file n outcome =>
      simp only [EntrySpec.name] at hk ⊢
      rcases hres : (try_delete outcome RETRIES).result with msg | b
      · simp [EntrySpec.name, hk, hres] at hx
      · cases b
        · simp [EntrySpec.name, hk, hres] at hx
        · simp [EntrySpec.name, hk, hres] at hx
          exact Or.inl hx
    | dir n res =>
      simp only [EntrySpec.name] at hk ⊢
      rcases res with m | m
      · simp [EntrySpec.name, hk] at hx
      · simp [EntrySpec.name, hk] at hx
        exact Or.inr hx
    | other n => simp [EntrySpec.name, hk] at hx
    | raising n m => simp [EntrySpec.name, hk] at hx

theorem entryOps_shape (kl : List String) (e : EntrySpec) (x : String)
    (hx : x ∈ entryOps kl e) :
    lowerStr e.name ∉ kl ∧ x = e.name := by
  unfold entryOps at hx
  by_cases hk : lowerStr e.name ∈ kl
  · simp [hk] at hx
  · refine ⟨hk, ?_⟩
    cases e with
    | file n outcome =>
      simp only [EntrySpec.name] at hk ⊢
      simp [EntrySpec.name, hk] at hx
      exact hx
    | dir n res =>
      simp only [EntrySpec.name] at hk ⊢
      simp [EntrySpec.name, hk] at hx
      exact hx
    | other n => simp [EntrySpec.name] at hx
    | raising n m => simp [EntrySpec.name] at hx

theorem entrySkipped_of_kept (kl : List String) (e : EntrySpec)
    (hk : lowerStr e.name ∈ kl) : entrySkipped kl e = [e.name] := by
  unfold entrySkipped
  simp [hk]

theorem entry_bucket_count (kl : List String) (e : EntrySpec) :
    (entryDeleted kl e).length + (entrySkipped kl e).length
      + (entryErrors kl e).length = 1 := by
  unfold entryDeleted entrySkipped entryErrors
  by_cases hk : lowerStr e.name ∈ kl
  · simp [hk]
  · cases e with
    | file n outcome =>
      simp only [EntrySpec.name] at hk
      rcases hres : (try_delete outcome RETRIES).result with msg | b
      · simp [EntrySpec.name, hk, hres]
      · cases b <;> simp [EntrySpec.name, hk, hres]
    | dir n res =>
      simp only [EntrySpec.name] at hk
      rcases res with _ | m <;> simp [EntrySpec.name, hk]
    | other n => simp only [EntrySpec.name] at hk; simp [EntrySpec.name, hk]
    | raising n m => simp only [EntrySpec.name] at hk; simp [EntrySpec.name, hk]

theorem entryErrors_eq_nil_of_deleted (kl : List String) (e : EntrySpec)
    (h : entryDeleted kl e ≠ []) : entryErrors kl e = [] := by
  have hc := entry_bucket_count kl e
  have hd : 0 < (entryDeleted kl e).length := List.length_pos.mpr h
  have hz : (entryErrors kl e).length = 0 := by omega
  exact List.eq_nil_of_length_eq_zero hz

theorem flatMap_three_length {α β γ δ : Type} (l : List α)
    (f : α → List β) (g : α → List γ) (h : α → List δ)
    (hone : ∀ x ∈ l, (f x).length + (g x).length + (h x).length = 1) :
    (l.flatMap f).length + (l.flatMap g).length + (l.flatMap h).length = l.length := by
  induction l with
  | nil => simp
  | cons a t ih =>
    simp only [List.flatMap_cons, List.length_append, List.length_cons]
    have ha := hone a (List.mem_cons_self a t)
    have iht := ih (fun x hx => hone x (List.mem_cons_of_mem a hx))
    omega

theorem flatMap_filter_of_nil {α β : Type} (l : List α) (p : α → Bool) (f : α → List β)
    (hnil : ∀ x ∈ l, p x = false → f x = []) :
    (l.filter p).flatMap f = l.flatMap f := by
  induction l with
  | nil => rfl
  | cons a t ih =>
    have iht := ih (fun x hx => hnil x (List.mem_cons_of_mem a hx))
    cases hp : p a with
    | true => simp [List.filter_cons, hp, iht]
    | false => simp [List.filter_cons, hp, iht, hnil a (List.mem_cons_self a t) hp]

theorem safe_delete_all_ok (entries : List EntrySpec) (keep_list : List String)
    (rep : Report) (h : safe_delete_all entries none keep_list = Except.ok rep) :
    rep = (runEntries (keep_list.map lowerStr) entries).report := by
  unfold safe_delete_all at h
  exact (Except.ok.injEq _ _ ▸ h).symm

/-- C1: Every direct child whose name is in the keep list
(case-insensitively) is recorded in `skipped`, never in `deleted`, and no
delete operation (`os.remove`/`shutil.rmtree`) is invoked on it.  The
hypothesis `hsep` states the filesystem invariant that an entry name never
contains the path separator. -/
theorem keep_list_exclusivity (entries : List EntrySpec) (keep_list : List String)
    (rep : Report) (e : EntrySpec)
    (hsep : ∀ x ∈ entries, ('/' : Char) ∉ (EntrySpec.name x).data)
    (he : e ∈ entries)
    (hk : lowerStr e.name ∈ keep_list.map lowerStr)
    (hrun : safe_delete_all entries none keep_list = Except.ok rep) :
    e.name ∈ rep.skipped ∧ e.name ∉ rep.deleted
      ∧ e.name ∉ (runEntries (keep_list.map lowerStr) entries).ops := by
  have hrep := safe_delete_all_ok entries keep_list rep hrun
  rw [hrep, runEntries_eq]
  refine ⟨?_, ?_, ?_⟩
  · exact List.mem_flatMap.mpr ⟨e, he, by
      rw [entrySkipped_of_kept _ _ hk]; exact List.mem_singleton_self _⟩
  · intro hmem
    obtain ⟨e2, he2, hx⟩ := List.mem_flatMap.mp hmem
    obtain ⟨hnk, hcase⟩ := entryDeleted_shape _ e2 _ hx
    rcases hcase with hc | hc
    · exact hnk (by rw [show e2.name = e.name from hc.symm]; exact hk)
    · have hmem2 : ('/' : Char) ∈ (EntrySpec.name e).data := by
        rw [hc, String.data_append]
        exact List.mem_append_right _ (by decide)
      exact hsep e he hmem2
  · intro hmem
    obtain ⟨e2, he2, hx⟩ := List.mem_flatMap.mp hmem
    obtain ⟨hnk, hc⟩ := entryOps_shape _ e2 _ hx
    exact hnk (by rw [show e2.name = e.name from hc.symm]; exact hk)

theorem keep_list_exclusivity_witness :
    (EntrySpec.other "KeepMe").name ∈ wRep.skipped ∧
    (EntrySpec.other "KeepMe").name ∉ wRep.deleted ∧
    (EntrySpec.other "KeepMe").name ∉ (runEntries (["keepme"].map lowerStr) wEntries).ops :=
  keep_list_exclusivity wEntries ["keepme"] wRep (EntrySpec.other "KeepMe")
    (by intro x hx; fin_cases hx <;> decide)
    (List.mem_cons_self _ _) (by decide) rfl

/-- C4: When enumeration succeeds, every enumerated direct child lands
in exactly one report bucket: `|deleted| + |skipped| + |errors|` equals the
number of enumerated children, and no entry aborts its siblings. -/
theorem batch_completeness (entries : List EntrySpec) (keep_list : List String)
    (rep : Report)
    (hrun : safe_delete_all entries none keep_list = Except.ok rep) :
    rep.deleted.length + rep.skipped.length + rep.errors.length = entries.length := by
  have hrep := safe_delete_all_ok entries keep_list rep hrun
  rw [hrep, runEntries_eq]
  exact flatMap_three_length entries _ _ _ (fun x _ => entry_bucket_count _ x)

theorem batch_completeness_witness :
    wRep.deleted.length + wRep.skipped.length + wRep.errors.length = wEntries.length :=
  batch_completeness wEntries ["keepme"] wRep rfl

/-- C9: A second run on the entries the first run did not delete (no
additions in between, per-entry behavior unchanged) deletes nothing and
reports exactly the first run's errors. -/
theorem idempotence (entries : List EntrySpec) (keep_list : List String)
    (rep1 rep2 : Report)
    (h1 : safe_delete_all entries none keep_list = Except.ok rep1)
    (h2 : safe_delete_all (survivors (keep_list.map lowerStr) entries) none keep_list
      = Except.ok rep2) :
    rep2.deleted = [] ∧ rep2.errors = rep1.errors := by
  have hr1 := safe_delete_all_ok _ _ _ h1
  have hr2 := safe_delete_all_ok _ _ _ h2
  rw [hr1, hr2, runEntries_eq, runEntries_eq]
  constructor
  · apply List.flatMap_eq_nil_iff.mpr
    intro x hx
    rw [survivors] at hx
    exact List.isEmpty_iff.mp (List.mem_filter.mp hx).2
  · apply flatMap_filter_of_nil
    intro x hx hp
    apply entryErrors_eq_nil_of_deleted
    intro hnil
    rw [hnil] at hp
    simp at hp

theorem idempotence_witness : wRep2.deleted = [] ∧ wRep2.errors = wRep1.errors :=
  idempotence wEntries2 ["keepme"] wRep1 wRep2 rfl rfl

/-- C5: `try_delete` makes at most `RETRIES = 3` attempts; when every
attempt fails with `PermissionError` or `FileNotFoundError` it performs
exactly 3 attempts with a 250 ms sleep after each, returns `False` (never
raising for these failure modes), and the engine then records the entry
under `errors` with reason "access denied". -/
theorem retry_bound_report (outcome : Nat → DeleteOutcome) :
    (try_delete outcome RETRIES).attempts ≤ RETRIES
    ∧ ((∀ i, i < RETRIES →
          outcome i = DeleteOutcome.permError ∨ outcome i = DeleteOutcome.vanished) →
        try_delete outcome RETRIES
          = ⟨Except.ok false, RETRIES, [DELAY_MS, DELAY_MS, DELAY_MS]⟩)
    ∧ ((∀ i, i < RETRIES → ∀ msg, outcome i ≠ DeleteOutcome.otherError msg) →
        ∃ b, (try_delete outcome RETRIES).result = Except.ok b)
    ∧ (∀ (entries : List EntrySpec) (keep_list : List String) (rep : Report) (n : String),
        safe_delete_all entries none keep_list = Except.ok rep →
        EntrySpec.file n outcome ∈ entries →
        lowerStr n ∉ keep_list.map lowerStr →
        (∀ i, i < RETRIES →
          outcome i = DeleteOutcome.permError ∨ outcome i = DeleteOutcome.vanished) →
        (n, "access denied") ∈ rep.errors) := by
  refine ⟨try_delete_go_attempts_le outcome RETRIES 0, ?_, ?_, ?_⟩
  · intro h
    exact try_delete_go_all_fail outcome RETRIES 0
      (fun j hj => by rw [Nat.zero_add]; exact h j hj)
  · intro h
    exact try_delete_go_no_other outcome RETRIES 0
      (fun j hj msg => by rw [Nat.zero_add]; exact h j hj msg)
  · intro entries keep_list rep n hrun hmem hnk hfail
    have hrep := safe_delete_all_ok _ _ _ hrun
    rw [hrep, runEntries_eq]
    apply List.mem_flatMap.mpr
    refine ⟨EntrySpec.file n outcome, hmem, ?_⟩
    have htd : try_delete outcome RETRIES
        = ⟨Except.ok false, RETRIES, [DELAY_MS, DELAY_MS, DELAY_MS]⟩ :=
      try_delete_go_all_fail outcome RETRIES 0
        (fun j hj => by rw [Nat.zero_add]; exact hfail j hj)
    unfold entryErrors
    simp [EntrySpec.name, hnk, htd]

theorem retry_bound_report_witness :
    (try_delete (fun _ => DeleteOutcome.permError) RETRIES).attempts ≤ RETRIES ∧
    try_delete (fun _ => DeleteOutcome.permError) RETRIES
      = ⟨Except.ok false, RETRIES, [DELAY_MS, DELAY_MS, DELAY_MS]⟩ ∧
    (∃ b, (try_delete (fun _ => DeleteOutcome.permError) RETRIES).result = Except.ok b) ∧
    ("locked.txt", "access denied") ∈ wRep1.errors := by
  obtain ⟨h1, h2, h3, h4⟩ := retry_bound_report (fun _ => DeleteOutcome.permError)
  exact ⟨h1, h2 (fun i _ => Or.inl rfl),
    h3 (fun i _ msg h => DeleteOutcome.noConfusion h),
    h4 wEntries2 ["keepme"] wRep1 "locked.txt" rfl (List.mem_cons_self _ _)
      (by decide) (fun i _ => Or.inl rfl)⟩

theorem wait_ticks_le (stop : Nat → Bool) (k : Nat) : ∀ t, wait_ticks stop k t ≤ k := by
  induction k with
  | zero => intro t; exact Nat.le_refl 0
  | succ n ih =>
    intro t
    unfold wait_ticks
    by_cases h : stop t = true
    · simp [h]
    · simp [h]
      have := ih (t + 1)
      omega

theorem wait_ticks_pos (stop : Nat → Bool) (k t : Nat) (h : stop t = false) :
    1 ≤ wait_ticks stop (k + 1) t := by
  unfold wait_ticks
  simp [h]

theorem wait_ticks_land_le (stop : Nat → Bool)
    (hm : ∀ a b, a ≤ b → stop a = true → stop b = true)
    (T : Nat) (hT : stop T = true) (k : Nat) :
    ∀ t, t + wait_ticks stop k t ≤ max t T := by
  induction k with
  | zero =>
    intro t
    simp [wait_ticks]
  | succ n ih =>
    intro t
    unfold wait_ticks
    by_cases h : stop t = true
    · simp [h]
    · have hb : stop t = false := by simpa using h
      have htT : t < T := by
        by_contra hge
        rw [hm T t (by omega) hT] at hb
        exact Bool.noConfusion hb
      have hland := ih (t + 1)
      have hmax1 : max (t + 1) T = T := Nat.max_eq_right (by omega)
      have hmax2 : max t T = T := Nat.max_eq_right (by omega)
      simp [h]
      omega

/-- From loop-top state `(c, t)` with at least `T - t + 1` iterations of
fuel available, a monotone stop flag set by time `T` makes the loop halt
normally, no later than `max t (T + D)` where `D` bounds every batch
duration. -/
theorem cleanup_loop_go_stops (stop : Nat → Bool) (dur : Nat → Nat)
    (interval T D : Nat)
    (hm : ∀ a b, a ≤ b → stop a = true → stop b = true)
    (hT : stop T = true) (hD : ∀ c, dur c ≤ D) (hi : 1 ≤ interval) :
    ∀ fuel c t, T < t + fuel + 1 →
      ∃ tEnd c2,
        cleanup_loop_go stop (fun c => Except.ok (dur c)) interval (fuel + 1) c t
          = some (Except.ok (tEnd, c2)) ∧ tEnd ≤ max t (T + D) := by
  intro fuel
  induction fuel with
  | zero =>
    intro c t hlt
    have hst : stop t = true := hm T t (by omega) hT
    refine ⟨t, c, ?_, Nat.le_max_left ..⟩
    unfold cleanup_loop_go
    simp [hst]
  | succ f ih =>
    intro c t hlt
    by_cases h : stop t = true
    · refine ⟨t, c, ?_, Nat.le_max_left ..⟩
      unfold cleanup_loop_go
      simp [h]
    · have hb : stop t = false := by simpa using h
      have htT : t < T := by
        by_contra hge
        rw [hm T t (by omega) hT] at hb
        exact Bool.noConfusion hb
      set tb := t + dur c with htb
      set w := wait_ticks stop interval tb with hw
      have hland : tb + w ≤ max tb T := wait_ticks_land_le stop hm T hT interval tb
      have htb_le : tb ≤ t + D := by
        have := hD c
        omega
      have hland2 : tb + w ≤ T + D := by
        have hmx : max tb T ≤ T + D := by
          rcases Nat.le_total tb T with hcase | hcase
          · rw [Nat.max_eq_right hcase]; omega
          · rw [Nat.max_eq_left hcase]; omega
        omega
      have hprog : t + 1 ≤ tb + w := by
        rcases Nat.eq_zero_or_pos (dur c) with hd0 | hdpos
        · have : 1 ≤ w := by
            rw [hw, htb, hd0, Nat.add_zero]
            obtain ⟨k, hk⟩ := Nat.exists_eq_add_of_le hi
            rw [show interval = k + 1 from by omega]
            exact wait_ticks_pos stop k t hb
          omega
        · omega
      obtain ⟨tEnd, c2, hgo, hle⟩ := ih (c + 1) (tb + w) (by omega)
      refine ⟨tEnd, c2, ?_, ?_⟩
      · unfold cleanup_loop_go
        simp only [h, if_false]
        simpa [htb, hw] using hgo
      · have : max (tb + w) (T + D) = T + D := Nat.max_eq_right hland2
        rw [this] at hle
        exact le_trans hle (Nat.le_max_right ..)

/-- C8: Once the stop flag is set (at time `T`, and it stays set), the
loop halts normally within the remainder of the in-flight batch plus the
current sleep tick: with every batch duration bounded by `D`, it observes
the flag no later than `T + D`.  The inter-cycle wait checks the flag once
per tick and sleeps at most `interval` ticks; a started batch contributes
its full duration atomically (the flag is only read between sleeps and at
the loop top, never mid-batch). -/
theorem stop_latency (stop : Nat → Bool) (dur : Nat → Nat) (interval T D : Nat)
    (hm : ∀ a b, a ≤ b → stop a = true → stop b = true)
    (hT : stop T = true) (hD : ∀ c, dur c ≤ D) (hi : 1 ≤ interval) :
    (∃ tEnd c2,
        cleanup_loop_go stop (fun c => Except.ok (dur c)) interval (T + 2) 0 0
          = some (Except.ok (tEnd, c2)) ∧ tEnd ≤ T + D)
    ∧ (∀ k t, wait_ticks stop k t ≤ k) := by
  constructor
  · obtain ⟨tEnd, c2, hgo, hle⟩ :=
      cleanup_loop_go_stops stop dur interval T D hm hT hD hi (T + 1) 0 0 (by omega)
    refine ⟨tEnd, c2, ?_, ?_⟩
    · simpa using hgo
    · simpa using hle
  · exact fun k t => wait_ticks_le stop k t

theorem stop_latency_witness :
    ∃ tEnd c2,
      cleanup_loop_go (fun t => decide (5 ≤ t)) (fun c => Except.ok ((fun _ => 2) c)) 10 7 0 0
        = some (Except.ok (tEnd, c2)) ∧ tEnd ≤ 5 + 2 :=
  (stop_latency (fun t => decide (5 ≤ t)) (fun _ => 2) 10 5 2
    (fun a b hab ha => by
      simp only [decide_eq_true_eq] at ha ⊢
      omega)
    (by decide) (fun _ => Nat.le_refl 2) (by omega)).1

/-- C6 counterexample: When enumerating the children raises (the
folder vanished), `safe_delete_all` returns the exception rather than a
report — nothing is recorded in any bucket — and the loop, which has no
handler, ends exceptionally instead of sleeping until the next interval. -/
theorem enumeration_failure_cx :
    safe_delete_all [EntrySpec.other "a.txt"] (some "folder vanished") ["keep_me"]
      = Except.error "folder vanished"
    ∧ cleanup_loop_go (fun _ => false) (fun _ => Except.error "folder vanished") 3600 5 0 0
      = some (Except.error "folder vanished") := ⟨rfl, rfl⟩

/-- C6 amended: A mid-cycle enumeration failure escapes
`safe_delete_all` as an exception (no report is produced), and since
`cleanup_loop` does not catch it, the loop terminates exceptionally rather
than proceeding to the next interval. -/
theorem enumeration_failure_propagates (entries : List EntrySpec) (msg : String)
    (keep_list : List String) (stop : Nat → Bool) (batch : Nat → Except String Nat)
    (interval fuel c t : Nat)
    (hstop : stop t = false) (hbatch : batch c = Except.error msg) :
    safe_delete_all entries (some msg) keep_list = Except.error msg
    ∧ cleanup_loop_go stop batch interval (fuel + 1) c t = some (Except.error msg) := by
  refine ⟨rfl, ?_⟩
  unfold cleanup_loop_go
  simp [hstop, hbatch]

theorem enumeration_failure_propagates_witness :
    safe_delete_all [] (some "gone") [] = Except.error "gone"
    ∧ cleanup_loop_go (fun _ => false) (fun _ => Except.error "gone") 1 1 0 0
      = some (Except.error "gone") :=
  enumeration_failure_propagates [] "gone" [] (fun _ => false)
    (fun _ => Except.error "gone") 1 0 0 0 rfl rfl

end AutoCleaner
